import Mathlib

/-!
Verification of FindUncommonShares (FindUncommonShares.py) against its
natural-language specification.  The Python source is shallowly embedded:
pure helpers become Lean functions, the stateful worker/aggregation loop
becomes explicit state passing over a results map, machine integers are
`Nat`, and fallible parsing returns `Option`.
-/

namespace FindUncommonShares

/-- The allow-list of common share names (module-level `COMMON_SHARES`). -/
def COMMON_SHARES : List String :=
  ["C$",
   "ADMIN$", "IPC$",
   "PRINT$", "print$",
   "fax$", "FAX$",
   "SYSVOL", "NETLOGON"]

/-- Embeds `STYPE_MASK(stype_value)`: decodes a share-type bitmask into the
list of flag names, in the order the Python function appends them.
The constants are the `known_flags` dictionary values:
`STYPE_DISKTREE = 0x0`, `STYPE_PRINTQ = 0x1`, `STYPE_DEVICE = 0x2`,
`STYPE_IPC = 0x3`, `STYPE_SPECIAL = 0x80000000`, `STYPE_TEMPORARY = 0x40000000`. -/
def STYPE_MASK (stype_value : Nat) : List String :=
  let flags : List String :=
    if stype_value &&& 0b11 = 0x0 then ["STYPE_DISKTREE"]
    else if stype_value &&& 0b11 = 0x1 then ["STYPE_PRINTQ"]
    else if stype_value &&& 0b11 = 0x2 then ["STYPE_DEVICE"]
    else if stype_value &&& 0b11 = 0x3 then ["STYPE_IPC"]
    else []
  let flags := if stype_value &&& 0x80000000 = 0 then flags ++ ["STYPE_SPECIAL"] else flags
  let flags := if stype_value &&& 0x40000000 = 0 then flags ++ ["STYPE_TEMPORARY"] else flags
  flags

/-- The four mutually exclusive share categories. -/
def STYPE_CATEGORIES : List String :=
  ["STYPE_DISKTREE", "STYPE_PRINTQ", "STYPE_DEVICE", "STYPE_IPC"]

/-- The attributes kept per computer object (`dNSHostName`, `sAMAccountName`). -/
structure LdapComputer where
  dNSHostName : String
  sAMAccountName : String
deriving DecidableEq, Repr

/-- One entry of an LDAP search response, as read by `get_domain_computers`:
its `type`, its `dn`, and the two requested attributes. -/
structure LdapEntry where
  type : String
  dn : String
  dNSHostName : String
  sAMAccountName : String
deriving DecidableEq, Repr

/-- One page served by the directory server: the response entries plus the
cookie of the `1.2.840.113556.1.4.319` paged-results control.  `none` models
a response without the paging control (either no `controls` key at all or a
`controls` dictionary without that OID — both branches of the Python code
stop the loop). -/
structure LdapPage where
  entries : List LdapEntry
  cookie : Option String
deriving DecidableEq, Repr

/-- Python-dict insertion: updates an existing key in place, otherwise
appends the new binding at the end (CPython dict order semantics for
`results[entry.dn] = ...`). -/
def dictInsert (k : String) (v : LdapComputer) :
    List (String × LdapComputer) → List (String × LdapComputer)
  | [] => [(k, v)]
  | (k₀, v₀) :: rest => if k₀ = k then (k, v) :: rest else (k₀, v₀) :: dictInsert k v rest

/-- The `for entry in ldap_session.response` loop body: entries whose type is
not `searchResEntry` are skipped, the rest are stored under their `dn`. -/
def addEntries : List LdapEntry → List (String × LdapComputer) → List (String × LdapComputer)
  | [], results => results
  | e :: rest, results =>
    if e.type ≠ "searchResEntry" then addEntries rest results
    else addEntries rest (dictInsert e.dn ⟨e.dNSHostName, e.sAMAccountName⟩ results)

/-- The `while paged_response` loop of `get_domain_computers`, consuming the
server's pages in order.  Each iteration first inspects the paging control to
decide whether to continue (empty cookie or absent control stop the loop),
then folds the page's entries into `results`; the source does these two steps
in the same iteration, so the order between them is immaterial. -/
def pagedLoop : List LdapPage → List (String × LdapComputer) → List (String × LdapComputer)
  | [], results => results
  | p :: rest, results =>
    let results₁ := addEntries p.entries results
    match p.cookie with
    | none => results₁
    | some c => if c = "" then results₁ else pagedLoop rest results₁

/-- Embeds `get_domain_computers`, abstracting the LDAP session as the list
of pages the server would serve for the successive cookies. -/
def get_domain_computers (pages : List LdapPage) : List (String × LdapComputer) :=
  pagedLoop pages []

/-- A well-formed page sequence: every page except the last carries a
non-empty continuation cookie, and the last page ends the exchange with an
empty cookie or with the paging control absent. -/
def wfPages : List LdapPage → Prop
  | [] => True
  | [p] => p.cookie = none ∨ p.cookie = some ""
  | p :: rest => (∃ c, p.cookie = some c ∧ c ≠ "") ∧ wfPages rest

/-- The record stored for one LDAP entry. -/
def entryRecord (e : LdapEntry) : String × LdapComputer :=
  (e.dn, ⟨e.dNSHostName, e.sAMAccountName⟩)

/-- The entries the loop keeps: those of type `searchResEntry`. -/
def keptEntries (l : List LdapEntry) : List LdapEntry :=
  l.filter (fun e => e.type == "searchResEntry")

/-- One `SHARE_INFO_1` structure returned by `smbClient.listShares()`. -/
structure SmbShare where
  shi1_netname : String
  shi1_remark : String
  shi1_type : Nat
deriving DecidableEq, Repr

/-- The command-line options the worker and driver read. -/
structure Options where
  use_ldaps : Bool
  quiet : Bool
  debug : Bool
  colors : Bool
  ignore_hidden_shares : Bool
  threads : Nat
deriving DecidableEq, Repr

/-- Embeds the Python slice `s[:-1]` on a `str`: drops the final character;
an empty string stays empty. -/
def pyDropLastChar (s : String) : String := ⟨s.data.dropLast⟩

/-- The decoded type sub-dictionary of a recorded share. -/
structure ShareTypeInfo where
  stype_value : Nat
  stype_flags : List String
deriving DecidableEq, Repr

/-- One recorded share: the dictionary appended to
`results[target_name]` (lines 435-452). -/
structure ShareRecord where
  computer_fqdn : String
  computer_ip : String
  name : String
  comment : String
  hidden : Bool
  uncpath : String
  type : ShareTypeInfo
deriving DecidableEq, Repr

/-- Builds the record appended for one share: `sharename` and `sharecomment`
are `share["shi1_netname"][:-1]` and `share["shi1_remark"][:-1]`, `hidden` is
`True if sharename.endswith("$") else False`, `uncpath` is
`"\\".join(["", "", target_ip, sharename, ""])`. -/
def mkShareRecord (target_name target_ip : String) (share : SmbShare) : ShareRecord :=
  let sharename := pyDropLastChar share.shi1_netname
  let sharecomment := pyDropLastChar share.shi1_remark
  let sharetype := share.shi1_type
  { computer_fqdn := target_name
    computer_ip := target_ip
    name := sharename
    comment := sharecomment
    hidden := if sharename.endsWith "$" then true else false
    uncpath := String.intercalate "\\" ["", "", target_ip, sharename, ""]
    type := { stype_value := sharetype, stype_flags := STYPE_MASK sharetype } }

/-- The console lines printed for one share (lines 455-499); `\x27` is the
single-quote character of the Python format strings and `\x1b[..m` the ANSI
color escapes. -/
def shareDisplayLines (options : Options) (address sharename sharecomment : String) :
    List String :=
  if sharename ∉ COMMON_SHARES then
    if ¬ options.quiet then
      if sharecomment.length ≠ 0 then
        if options.colors then
          if sharename.endsWith "$" then
            if ¬ options.ignore_hidden_shares then
              ["[>] Found \x27\x1b[94m" ++ sharename ++ "\x1b[0m\x27 on \x27\x1b[96m"
                ++ address ++ "\x1b[0m\x27 (comment: \x27\x1b[95m" ++ sharecomment
                ++ "\x1b[0m\x27)"]
            else []
          else
            ["[>] Found \x27\x1b[93m" ++ sharename ++ "\x1b[0m\x27 on \x27\x1b[96m"
              ++ address ++ "\x1b[0m\x27 (comment: \x27\x1b[95m" ++ sharecomment
              ++ "\x1b[0m\x27)"]
        else
          ["[>] Found \x27" ++ sharename ++ "\x27 on \x27" ++ address
            ++ "\x27 (comment: \x27" ++ sharecomment ++ "\x27)"]
      else
        if options.colors then
          if sharename.endsWith "$" then
            if ¬ options.ignore_hidden_shares then
              ["[>] Found \x27\x1b[94m" ++ sharename ++ "\x1b[0m\x27 on \x27\x1b[96m"
                ++ address ++ "\x1b[0m\x27"]
            else []
          else
            ["[>] Found \x27\x1b[93m" ++ sharename ++ "\x1b[0m\x27 on \x27\x1b[96m"
              ++ address ++ "\x1b[0m\x27"]
        else
          if sharename.endsWith "$" then
            if ¬ options.ignore_hidden_shares then
              ["[>] Found \x27" ++ sharename ++ "\x27 on \x27" ++ address ++ "\x27"]
            else []
          else
            ["[>] Found \x27" ++ sharename ++ "\x27 on \x27" ++ address ++ "\x27"]
    else []
  else if options.debug ∧ ¬ options.quiet then
    if sharecomment.length ≠ 0 then
      if options.colors then
        if sharename.endsWith "$" ∧ ¬ options.ignore_hidden_shares then
          ["[>] Skipping common share \x27\x1b[94m" ++ sharename
            ++ "\x1b[0m\x27 on \x27\x1b[96m" ++ address
            ++ "\x1b[0m\x27 (comment: \x27\x1b[95m" ++ sharecomment ++ "\x1b[0m\x27)"]
        else
          ["[>] Skipping common share \x27\x1b[93m" ++ sharename
            ++ "\x1b[0m\x27 on \x27\x1b[96m" ++ address
            ++ "\x1b[0m\x27 (comment: \x27\x1b[95m" ++ sharecomment ++ "\x1b[0m\x27)"]
      else
        ["[>] Skipping common share \x27" ++ sharename ++ "\x27 on \x27" ++ address
          ++ "\x27 (comment: \x27" ++ sharecomment ++ "\x27)"]
    else
      if options.colors then
        if sharename.endsWith "$" ∧ ¬ options.ignore_hidden_shares then
          ["[>] Skipping common share \x27\x1b[94m" ++ sharename
            ++ "\x1b[0m\x27 on \x27\x1b[96m" ++ address ++ "\x1b[0m\x27"]
        else
          ["[>] Skipping common share \x27\x1b[93m" ++ sharename
            ++ "\x1b[0m\x27 on \x27\x1b[96m" ++ address ++ "\x1b[0m\x27"]
      else
        if sharename.endsWith "$" then
          if ¬ options.ignore_hidden_shares then
            ["[>] Skipping common share \x27" ++ sharename ++ "\x27 on \x27"
              ++ address ++ "\x27"]
          else []
        else
          ["[>] Skipping common share \x27" ++ sharename ++ "\x27 on \x27"
            ++ address ++ "\x27"]
  else []

/-- The shared results map: host name to its ordered list of records. -/
abbrev Results := List (String × List ShareRecord)

/-- Embeds lines 433-435 under the lock: create `results[target_name] = []`
if the key is new (appended at the end, CPython dict order), then append the
record to `results[target_name]`. -/
def resultsAppend (target_name : String) (rec : ShareRecord) (results : Results) : Results :=
  let withKey := if results.any (fun kv => kv.1 == target_name) then results
                 else results ++ [(target_name, [])]
  withKey.map (fun kv => if kv.1 == target_name then (kv.1, kv.2 ++ [rec]) else kv)

/-- One iteration of the `for share in resp` loop: record the share under the
lock, then print the discovery line the option flags allow. -/
def workerShareStep (options : Options) (target_name target_ip address : String)
    (share : SmbShare) (results : Results) : Results × List String :=
  let sharename := pyDropLastChar share.shi1_netname
  let sharecomment := pyDropLastChar share.shi1_remark
  (resultsAppend target_name (mkShareRecord target_name target_ip share) results,
   shareDisplayLines options address sharename sharecomment)

/-- The XLSX header fields (line 576). -/
def header_fields : List String :=
  ["Computer FQDN", "Computer IP", "Share name", "Share comment", "Is hidden"]

/-- One data row of the XLSX export. -/
structure XlsxRow where
  fqdn : String
  ip : String
  name : String
  comment : String
  hidden : Bool
deriving DecidableEq, Repr

/-- The data row written for one share (line 586). -/
def xlsxRowOf (r : ShareRecord) : XlsxRow :=
  ⟨r.computer_fqdn, r.computer_ip, r.name, r.comment, r.hidden⟩

/-- The XLSX worksheet contents: the header row, the data rows in writing
order (row `k` of the list sits at worksheet row `k+1`), and the
`(first_row, first_col, last_row, last_col)` autofilter range. -/
structure XlsxSheet where
  header : List String
  rows : List XlsxRow
  autofilter : Nat × Nat × Nat × Nat
deriving DecidableEq, Repr

/-- Embeds the `--export-xlsx` block (lines 561-591): the header is written
at row 0, `row_id` starts at 1 and is incremented after each written share
row, and finally `worksheet.autofilter(0, 0, row_id, len(header_fields)-1)`
is called with the post-loop value of `row_id`. -/
def export_xlsx (results : Results) : XlsxSheet :=
  let fin := results.foldl
    (fun acc kv => kv.2.foldl
      (fun acc₂ share => (acc₂.1 + 1, acc₂.2 ++ [xlsxRowOf share])) acc)
    ((1 : Nat), ([] : List XlsxRow))
  { header := header_fields
    rows := fin.2
    autofilter := (0, 0, fin.1, header_fields.length - 1) }

/-- One row of the SQLite `shares` table. -/
structure SqliteRow where
  fqdn : String
  ip : String
  shi1_netname : String
  shi1_remark : String
  shi1_type : Nat
deriving DecidableEq, Repr

/-- The row inserted for one share (lines 610-617). -/
def sqliteRowOf (r : ShareRecord) : SqliteRow :=
  ⟨r.computer_fqdn, r.computer_ip, r.name, r.comment, r.type.stype_value⟩

/-- Embeds the `--export-sqlite` block: one `INSERT` per share, iterating
hosts then shares. -/
def export_sqlite (results : Results) : List SqliteRow :=
  results.flatMap (fun kv => kv.2.map sqliteRowOf)

/-- Embeds the `--export-json` payload: `json.dumps(results, indent=4)`
serializes the results map as-is, so the payload is the map itself. -/
def export_json (results : Results) : Results := results

/-- The externally determined outcome of one host's probe.  The `try` block
of `worker` spans SMB session setup, `listShares` and the whole share loop,
so an exception may interrupt the loop after any prefix of the shares. -/
inductive ProbeOutcome where
  /-- `dns_lookup(target_name).answer` came back empty: the worker returns
  without probing (`len(target_ip) != 0` guard). -/
  | noAnswer : ProbeOutcome
  /-- The probe raised exception `msg` (session setup, authentication, RPC,
  or mid-loop) after `processed` shares had already been handled. -/
  | failure (target_ip : String) (processed : List SmbShare) (msg : String) : ProbeOutcome
  /-- The probe succeeded and listed `shares`. -/
  | ok (target_ip : String) (shares : List SmbShare) : ProbeOutcome
deriving DecidableEq, Repr

/-- The `for share in resp` loop over a list of shares, threading the
results map and accumulating printed lines. -/
def processShares (options : Options) (target_name target_ip address : String)
    (shares : List SmbShare) (results : Results) : Results × List String :=
  shares.foldl
    (fun acc share =>
      let step := workerShareStep options target_name target_ip address share acc.1
      (step.1, acc.2 ++ step.2))
    (results, [])

/-- Embeds `worker`: resolution failure returns silently; an exception
anywhere in the `try` block is caught at the per-host boundary and printed
only in debug mode; the records appended before the exception stay.  The
call site passes the computer's `dNSHostName` for both `target_name` and
`address`. -/
def worker (options : Options) (target_name : String) (outcome : ProbeOutcome)
    (results : Results) : Results × List String :=
  match outcome with
  | .noAnswer => (results, [])
  | .failure target_ip processed msg =>
      let step := processShares options target_name target_ip target_name processed results
      (step.1, step.2 ++ (if options.debug then [msg] else []))
  | .ok target_ip shares =>
      processShares options target_name target_ip target_name shares results

/-- The thread-pool phase: every submitted task runs to completion against
the shared results map (the pool joins all tasks; the coarse lock serializes
the per-share inserts, and the per-host interleaving does not matter for the
claims below, which quantify over any task order). -/
def runHosts (options : Options) (hosts : List (String × ProbeOutcome))
    (acc : Results × List String) : Results × List String :=
  hosts.foldl
    (fun acc h =>
      let w := worker options h.1 h.2 acc.1
      (w.1, acc.2 ++ w.2))
    acc

/-- The observable outcome of one program run. -/
structure RunOutcome where
  exitCode : Nat
  usagePrinted : Bool
  results : Results
  output : List String
deriving Repr

/-- Embeds the `__main__` driver after a successful LDAP bind: `parse_args`
prints the usage and calls `sys.exit(1)` when `len(sys.argv) == 1` (i.e. the
user supplied no arguments); otherwise every discovered host is probed by
`worker` and the script falls off its end, exiting 0.  `argv` is the list of
user-supplied arguments and `hosts` pairs each discovered computer with the
outcome of its probe. -/
def runProgram (options : Options) (argv : List String)
    (hosts : List (String × ProbeOutcome)) : RunOutcome :=
  if argv.isEmpty then
    { exitCode := 1, usagePrinted := true, results := [], output := [] }
  else
    let fin := runHosts options hosts ([], [])
    { exitCode := 0, usagePrinted := false, results := fin.1, output := fin.2 }

/-- The credentials-related fields of `parse_args`.  `auth_password` is an
`Option String` so that Python `None` is representable: `none` models `None`
and `some s` a string value. -/
structure CredOptions where
  no_pass : Bool
  auth_password : Option String
  auth_hashes : Option String
  auth_key : Option String
  use_kerberos : Bool
deriving DecidableEq, Repr

/-- The argparse defaults: `--no-pass` is `False`, `-p` defaults to the
declared `default=""` (never `None`), `-H` and `--aes-key` default to
`None`, `-k` to `False`. -/
def credDefaults : CredOptions :=
  { no_pass := false
    auth_password := some ""
    auth_hashes := none
    auth_key := none
    use_kerberos := false }

/-- Mutual-exclusion check of the credentials group: a second, different
member of the group makes argparse reject the command line. -/
def groupOk (seen : Option String) (flag : String) : Bool :=
  match seen with
  | none => true
  | some f => f == flag

/-- Token-level model of argparse over the credentials group: stores the
value of each recognized option, enforces that `-p`, `-H` and `--aes-key`
take a value and that at most one member of the mutually exclusive group
appears; every other token belongs to the remaining argument groups and
leaves the credentials state unchanged.  `none` models the command line
being rejected. -/
def parseCredTokens : List String → CredOptions → Option String → Option CredOptions
  | [], opts, _ => some opts
  | tok :: rest, opts, seen =>
    if tok == "--no-pass" then
      if groupOk seen "--no-pass" then
        parseCredTokens rest { opts with no_pass := true } (some "--no-pass")
      else none
    else if tok == "-p" || tok == "--password" then
      match rest with
      | [] => none
      | v :: rest₂ =>
        if groupOk seen "-p" then
          parseCredTokens rest₂ { opts with auth_password := some v } (some "-p")
        else none
    else if tok == "-H" || tok == "--hashes" then
      match rest with
      | [] => none
      | v :: rest₂ =>
        if groupOk seen "-H" then
          parseCredTokens rest₂ { opts with auth_hashes := some v } (some "-H")
        else none
    else if tok == "--aes-key" then
      match rest with
      | [] => none
      | v :: rest₂ =>
        if groupOk seen "--aes-key" then
          parseCredTokens rest₂ { opts with auth_key := some v } (some "--aes-key")
        else none
    else if tok == "-k" || tok == "--kerberos" then
      parseCredTokens rest { opts with use_kerberos := true } seen
    else
      parseCredTokens rest opts seen

/-- The credentials state produced by `parse_args` for a command line,
starting from the argparse defaults. -/
def parse_args_credentials (argv : List String) : Option CredOptions :=
  parseCredTokens argv credDefaults none

/-- Embeds the prompt guard of lines 159-161:
`if options.auth_password is None and options.no_pass == False:` then
`getpass("Password:")` is called. -/
def passwordPromptReached (opts : CredOptions) : Bool :=
  opts.auth_password.isNone && (opts.no_pass == false)

/-- The pure results-map effect of one host's probe: the per-share appends
actually performed, independent of any display option. -/
def workerResults (target_name : String) (outcome : ProbeOutcome) (results : Results) :
    Results :=
  match outcome with
  | .noAnswer => results
  | .failure target_ip processed _ =>
      processed.foldl
        (fun acc s => resultsAppend target_name (mkShareRecord target_name target_ip s) acc)
        results
  | .ok target_ip shares =>
      shares.foldl
        (fun acc s => resultsAppend target_name (mkShareRecord target_name target_ip s) acc)
        results

/-- A single-bit mask test is zero exactly when the corresponding bit is clear. -/
lemma and_two_pow_eq_zero_iff (n i : Nat) : n &&& 2 ^ i = 0 ↔ n.testBit i = false := by
  rw [Nat.and_two_pow]
  cases h : n.testBit i <;> simp [h, (Nat.two_pow_pos i).ne']

/-- The low two bits of a value are its residue mod 4. -/
lemma and_three_eq_mod_four (n : Nat) : n &&& 3 = n % 4 := by
  have h := Nat.and_pow_two_sub_one_eq_mod n 2
  norm_num at h
  exact h

example : STYPE_MASK 0 = ["STYPE_DISKTREE", "STYPE_SPECIAL", "STYPE_TEMPORARY"] := by decide

example : STYPE_MASK 0x80000000 = ["STYPE_DISKTREE", "STYPE_TEMPORARY"] := by decide

example : STYPE_MASK 0xC0000001 = ["STYPE_PRINTQ"] := by decide

lemma mem_STYPE_MASK_special (n : Nat) :
    "STYPE_SPECIAL" ∈ STYPE_MASK n ↔ n &&& 0x80000000 = 0 := by
  unfold STYPE_MASK
  split_ifs <;> simp_all

lemma mem_STYPE_MASK_temporary (n : Nat) :
    "STYPE_TEMPORARY" ∈ STYPE_MASK n ↔ n &&& 0x40000000 = 0 := by
  unfold STYPE_MASK
  split_ifs <;> simp_all

/-- C1: for every share-type bitmask value, `STYPE_MASK` reports
`"STYPE_SPECIAL"` exactly when bit 31 (`0x80000000`) of the value is clear,
and reports `"STYPE_TEMPORARY"` exactly when bit 30 (`0x40000000`) of the
value is clear (the inverted polarity of the source is preserved as-is). -/
theorem stype_mask_inverted_polarity (stype_value : Nat) :
    ("STYPE_SPECIAL" ∈ STYPE_MASK stype_value ↔ stype_value.testBit 31 = false) ∧
    ("STYPE_TEMPORARY" ∈ STYPE_MASK stype_value ↔ stype_value.testBit 30 = false) := by
  constructor
  · rw [mem_STYPE_MASK_special, show (0x80000000 : Nat) = 2 ^ 31 by norm_num,
      and_two_pow_eq_zero_iff]
  · rw [mem_STYPE_MASK_temporary, show (0x40000000 : Nat) = 2 ^ 30 by norm_num,
      and_two_pow_eq_zero_iff]

/-- C2: for every share-type bitmask value, `STYPE_MASK` includes exactly one
of the four category flags, selected by the value's low 2 bits
(0 = disk, 1 = print queue, 2 = device, 3 = IPC), first match winning. -/
theorem stype_mask_category (stype_value : Nat) :
    (STYPE_MASK stype_value).filter (fun s => STYPE_CATEGORIES.contains s)
      = [if stype_value % 4 = 0 then "STYPE_DISKTREE"
         else if stype_value % 4 = 1 then "STYPE_PRINTQ"
         else if stype_value % 4 = 2 then "STYPE_DEVICE"
         else "STYPE_IPC"] := by
  have hmod := and_three_eq_mod_four stype_value
  have h4 : stype_value % 4 = 0 ∨ stype_value % 4 = 1 ∨ stype_value % 4 = 2 ∨
      stype_value % 4 = 3 := by omega
  unfold STYPE_MASK
  rcases h4 with h | h | h | h <;>
    simp only [show (0b11 : Nat) = 3 from rfl, hmod, h] <;>
    split_ifs <;> simp_all [STYPE_CATEGORIES]

lemma dictInsert_of_not_mem (k : String) (v : LdapComputer)
    (l : List (String × LdapComputer)) (h : k ∉ l.map Prod.fst) :
    dictInsert k v l = l ++ [(k, v)] := by
  induction l with
  | nil => rfl
  | cons kv rest ih =>
    simp only [List.map_cons, List.mem_cons] at h
    push_neg at h
    simp only [dictInsert, if_neg (Ne.symm h.1)]
    rw [ih h.2]
    rfl

lemma addEntries_append_fresh (entries : List LdapEntry)
    (results : List (String × LdapComputer))
    (hfresh : ∀ e ∈ keptEntries entries, e.dn ∉ results.map Prod.fst)
    (hnodup : ((keptEntries entries).map LdapEntry.dn).Nodup) :
    addEntries entries results = results ++ (keptEntries entries).map entryRecord := by
  induction entries generalizing results with
  | nil => simp [addEntries, keptEntries]
  | cons e rest ih =>
    by_cases he : e.type = "searchResEntry"
    · have hk : keptEntries (e :: rest) = e :: keptEntries rest := by
        simp [keptEntries, List.filter_cons, he]
      rw [hk] at hfresh hnodup
      simp only [List.map_cons, List.nodup_cons] at hnodup
      simp only [addEntries, he, ne_eq, not_true_eq_false, if_false]
      rw [dictInsert_of_not_mem e.dn _ results (hfresh e (by simp))]
      rw [ih _
          (fun x hx => by
            simp only [List.map_append, List.mem_append]
            push_neg
            refine ⟨hfresh x (by simp [hx]), ?_⟩
            simp only [List.map_cons, List.map_nil, List.mem_singleton]
            intro hc
            exact hnodup.1 (hc ▸ List.mem_map_of_mem LdapEntry.dn hx))
          hnodup.2]
      simp [hk, entryRecord]
    · have hk : keptEntries (e :: rest) = keptEntries rest := by
        simp [keptEntries, List.filter_cons, he]
      rw [hk] at hfresh hnodup
      simp only [addEntries, he, ne_eq, not_false_eq_true, if_true]
      rw [ih _ hfresh hnodup, hk]

lemma pagedLoop_cons_continue (p : LdapPage) (rest : List LdapPage)
    (results : List (String × LdapComputer)) (c : String)
    (hc : p.cookie = some c) (hcne : c ≠ "") :
    pagedLoop (p :: rest) results = pagedLoop rest (addEntries p.entries results) := by
  simp [pagedLoop, hc, hcne]

lemma pagedLoop_cons_stop (p : LdapPage) (rest : List LdapPage)
    (results : List (String × LdapComputer))
    (hc : p.cookie = none ∨ p.cookie = some "") :
    pagedLoop (p :: rest) results = addEntries p.entries results := by
  rcases hc with hc | hc <;> simp [pagedLoop, hc]

lemma keptEntries_append (a b : List LdapEntry) :
    keptEntries (a ++ b) = keptEntries a ++ keptEntries b := by
  simp [keptEntries, List.filter_append]

lemma map_fst_entryRecord (l : List LdapEntry) :
    (l.map entryRecord).map Prod.fst = l.map LdapEntry.dn := by
  simp only [List.map_map]
  exact List.map_congr_left fun x _ => rfl

lemma pagedLoop_eq_of_wf (pages : List LdapPage)
    (results : List (String × LdapComputer))
    (hwf : wfPages pages)
    (hfresh : ∀ e ∈ keptEntries (pages.flatMap LdapPage.entries),
        e.dn ∉ results.map Prod.fst)
    (hnodup : ((keptEntries (pages.flatMap LdapPage.entries)).map LdapEntry.dn).Nodup) :
    pagedLoop pages results
      = results ++ (keptEntries (pages.flatMap LdapPage.entries)).map entryRecord := by
  induction pages generalizing results with
  | nil => simp [pagedLoop, keptEntries]
  | cons p rest ih =>
    have hsplit : keptEntries ((p :: rest).flatMap LdapPage.entries)
        = keptEntries p.entries ++ keptEntries (rest.flatMap LdapPage.entries) := by
      simp [List.flatMap_cons, keptEntries_append]
    rw [hsplit] at hfresh hnodup
    rw [hsplit, List.map_append]
    simp only [List.map_append, List.nodup_append] at hnodup
    have hadd := addEntries_append_fresh p.entries results
      (fun e he => hfresh e (by simp [he]))
      hnodup.1
    rcases rest with _ | ⟨q, rest'⟩
    · rw [pagedLoop_cons_stop p [] results hwf, hadd]
      simp [keptEntries]
    · obtain ⟨⟨c, hc, hcne⟩, hwf'⟩ := hwf
      rw [pagedLoop_cons_continue p (q :: rest') results c hc hcne, hadd]
      have hfresh' : ∀ e ∈ keptEntries ((q :: rest').flatMap LdapPage.entries),
          e.dn ∉ ((results ++ (keptEntries p.entries).map entryRecord).map Prod.fst) := by
        intro e he
        rw [List.map_append, map_fst_entryRecord]
        simp only [List.mem_append]
        push_neg
        exact ⟨hfresh e (List.mem_append_right _ he),
          fun hmem => hnodup.2.2 hmem (List.mem_map_of_mem _ he)⟩
      rw [ih _ hwf' hfresh' hnodup.2.1, List.append_assoc]

/-- C3: for every sequence of server pages ending with an empty continuation
cookie (or with the paging control absent, treated as a single page rather
than an error), `get_domain_computers` terminates and returns the union of
all pages' computer (`searchResEntry`) entries exactly once each, keyed by
distinguishedName, with no duplicated or dropped entries. -/
theorem get_domain_computers_paged (pages : List LdapPage)
    (hwf : wfPages pages)
    (hnodup : ((keptEntries (pages.flatMap LdapPage.entries)).map LdapEntry.dn).Nodup) :
    get_domain_computers pages
      = (keptEntries (pages.flatMap LdapPage.entries)).map entryRecord := by
  have h := pagedLoop_eq_of_wf pages [] hwf (by simp) hnodup
  simpa [get_domain_computers] using h

/-- Witness for C3: a concrete two-page exchange (with a non-entry referral
interleaved) whose computer entries all appear exactly once in the result. -/
theorem get_domain_computers_paged_witness :
    get_domain_computers
        [⟨[⟨"searchResEntry", "CN=PC1", "pc1.corp.local", "PC1$"⟩,
           ⟨"searchResRef", "ref", "", ""⟩], some "cookie1"⟩,
         ⟨[⟨"searchResEntry", "CN=PC2", "pc2.corp.local", "PC2$"⟩], some ""⟩]
      = [("CN=PC1", ⟨"pc1.corp.local", "PC1$"⟩), ("CN=PC2", ⟨"pc2.corp.local", "PC2$"⟩)] := by
  have h := get_domain_computers_paged
    [⟨[⟨"searchResEntry", "CN=PC1", "pc1.corp.local", "PC1$"⟩,
       ⟨"searchResRef", "ref", "", ""⟩], some "cookie1"⟩,
     ⟨[⟨"searchResEntry", "CN=PC2", "pc2.corp.local", "PC2$"⟩], some ""⟩]
    (by simp [wfPages]) (by decide)
  simpa [entryRecord, keptEntries] using h

/-- C5: for every recorded share, the `hidden` field of its `ShareRecord`
is `true` if and only if the recorded share name ends with `"$"`. -/
theorem shareRecord_hidden_iff_dollar (target_name target_ip : String) (share : SmbShare) :
    (mkShareRecord target_name target_ip share).hidden = true ↔
      (mkShareRecord target_name target_ip share).name.endsWith "$" = true := by
  show (if (pyDropLastChar share.shi1_netname).endsWith "$" then true else false) = true ↔
    (pyDropLastChar share.shi1_netname).endsWith "$" = true
  cases h : (pyDropLastChar share.shi1_netname).endsWith "$" <;> simp [h]

/-- C9: the recorded share name and comment are the server-returned
`shi1_netname` and `shi1_remark` with their final character removed; an
empty server string stays empty, and a server string obtained by appending
any final character (a terminator or a genuine character alike) loses
exactly that character. -/
theorem shareRecord_strips_final_char (target_name target_ip : String) (share : SmbShare) :
    (mkShareRecord target_name target_ip share).name.data
        = share.shi1_netname.data.dropLast
    ∧ (mkShareRecord target_name target_ip share).comment.data
        = share.shi1_remark.data.dropLast
    ∧ (mkShareRecord target_name target_ip share).name.length
        = share.shi1_netname.length - 1
    ∧ pyDropLastChar "" = ""
    ∧ (∀ (base : String) (c : Char), share.shi1_netname = base.push c →
        (mkShareRecord target_name target_ip share).name = base) := by
  refine ⟨rfl, rfl, ?_, rfl, ?_⟩
  · show (share.shi1_netname.data.dropLast).length = share.shi1_netname.data.length - 1
    exact List.length_dropLast _
  · intro base c h
    show pyDropLastChar share.shi1_netname = base
    rw [h]
    show (⟨(base.data ++ [c]).dropLast⟩ : String) = base
    rw [List.dropLast_concat]

/-- Witness for C9 at a concrete share whose strings carry the assumed
trailing NUL terminator. -/
theorem shareRecord_strips_final_char_witness :
    (mkShareRecord "pc1.corp.local" "10.0.0.5"
        ⟨"ADMIN$\x00", "Remote Admin\x00", 0⟩).name = "ADMIN$" :=
  (shareRecord_strips_final_char "pc1.corp.local" "10.0.0.5"
    ⟨"ADMIN$\x00", "Remote Admin\x00", 0⟩).2.2.2.2 "ADMIN$" (Char.ofNat 0) (by decide)

lemma mem_withKey (t : String) (results : Results) :
    t ∈ ((if results.any (fun kv => kv.1 == t) then results
          else results ++ [(t, [])]).map Prod.fst) := by
  split
  · next h =>
      rcases List.any_eq_true.mp h with ⟨kv, hkv, hbeq⟩
      exact List.mem_map.mpr ⟨kv, hkv, beq_iff_eq.mp hbeq⟩
  · simp

lemma lookup_bump (t : String) (r : ShareRecord) (l : Results) (h : t ∈ l.map Prod.fst) :
    ∃ v, (l.map (fun kv => if kv.1 == t then (kv.1, kv.2 ++ [r]) else kv)).lookup t
        = some (v ++ [r])
      ∧ (t, v ++ [r]) ∈ l.map (fun kv => if kv.1 == t then (kv.1, kv.2 ++ [r]) else kv) := by
  induction l with
  | nil => simp at h
  | cons kv rest ih =>
    obtain ⟨k, vs⟩ := kv
    by_cases hk : k = t
    · refine ⟨vs, ?_, ?_⟩
      · simp [List.lookup_cons, hk]
      · simp [hk]
    · have h' : t ∈ rest.map Prod.fst := by
        rcases List.mem_cons.mp h with h₁ | h₁
        · exact absurd h₁.symm hk
        · exact h₁
      obtain ⟨v, hv, hmem⟩ := ih h'
      refine ⟨v, ?_, ?_⟩
      · have hbeq' : (t == k) = false := beq_eq_false_iff_ne.mpr (Ne.symm hk)
        have hcond : ¬ (((k, vs).1 == t) = true) := by simp [hk]
        simp only [List.map_cons, if_neg hcond, List.lookup_cons, hbeq']
        exact hv
      · exact List.mem_cons_of_mem _ hmem

lemma resultsAppend_lookup (t : String) (r : ShareRecord) (results : Results) :
    ∃ v, (resultsAppend t r results).lookup t = some (v ++ [r])
      ∧ (t, v ++ [r]) ∈ resultsAppend t r results := by
  unfold resultsAppend
  exact lookup_bump t r _ (mem_withKey t results)

lemma xlsx_fold_inner (shares : List ShareRecord) (n : Nat) (acc : List XlsxRow) :
    shares.foldl (fun acc₂ share => (acc₂.1 + 1, acc₂.2 ++ [xlsxRowOf share])) (n, acc)
      = (n + shares.length, acc ++ shares.map xlsxRowOf) := by
  induction shares generalizing n acc with
  | nil => simp
  | cons s rest ih =>
    simp only [List.foldl_cons, ih, List.map_cons, List.length_cons, Prod.mk.injEq]
    refine ⟨by omega, by simp⟩

lemma xlsx_fold_outer (results : Results) (n : Nat) (acc : List XlsxRow) :
    results.foldl
        (fun acc kv => kv.2.foldl
          (fun acc₂ share => (acc₂.1 + 1, acc₂.2 ++ [xlsxRowOf share])) acc)
        (n, acc)
      = (n + (results.flatMap (fun kv => kv.2.map xlsxRowOf)).length,
         acc ++ results.flatMap (fun kv => kv.2.map xlsxRowOf)) := by
  induction results generalizing n acc with
  | nil => simp
  | cons kv rest ih =>
    simp only [List.foldl_cons, xlsx_fold_inner, ih, List.flatMap_cons, List.length_append,
      List.length_map, List.append_assoc, Prod.mk.injEq]
    refine ⟨by omega, trivial⟩

lemma export_xlsx_rows (results : Results) :
    (export_xlsx results).rows = results.flatMap (fun kv => kv.2.map xlsxRowOf) := by
  simp [export_xlsx, xlsx_fold_outer]

lemma export_xlsx_autofilter (results : Results) :
    (export_xlsx results).autofilter
      = (0, 0, (export_xlsx results).rows.length + 1, header_fields.length - 1) := by
  simp only [export_xlsx, xlsx_fold_outer]
  norm_num [Nat.add_comm]

/-- C4: for every discovered share, membership of its name in the
common-shares allow-list affects only whether a discovery line is displayed:
the per-share step unconditionally appends the record to the results map
under its host key, and the record therefore appears in every export payload
(JSON, XLSX, SQLite) built from the updated map. -/
theorem common_shares_display_only (options : Options)
    (target_name target_ip address : String) (share : SmbShare) (results : Results) :
    (workerShareStep options target_name target_ip address share results).1
        = resultsAppend target_name (mkShareRecord target_name target_ip share) results
    ∧ (∃ v, ((workerShareStep options target_name target_ip address share results).1).lookup
          target_name = some (v ++ [mkShareRecord target_name target_ip share]))
    ∧ mkShareRecord target_name target_ip share
        ∈ (export_json ((workerShareStep options target_name target_ip address share
            results).1)).flatMap Prod.snd
    ∧ xlsxRowOf (mkShareRecord target_name target_ip share)
        ∈ (export_xlsx ((workerShareStep options target_name target_ip address share
            results).1)).rows
    ∧ sqliteRowOf (mkShareRecord target_name target_ip share)
        ∈ export_sqlite ((workerShareStep options target_name target_ip address share
            results).1) := by
  obtain ⟨v, hlook, hmem⟩ :=
    resultsAppend_lookup target_name (mkShareRecord target_name target_ip share) results
  refine ⟨rfl, ⟨v, hlook⟩, ?_, ?_, ?_⟩
  · exact List.mem_flatMap.mpr ⟨(target_name, v ++ [_]), hmem, by simp⟩
  · rw [export_xlsx_rows]
    exact List.mem_flatMap.mpr ⟨(target_name, v ++ [_]), hmem, by simp⟩
  · exact List.mem_flatMap.mpr ⟨(target_name, v ++ [_]), hmem, by simp⟩

/-- Counterexample for C7 as stated: with a single recorded share the last
written data row is worksheet row 1 (`rows.length`), but the autofilter
range passed to `worksheet.autofilter` ends at row 2 — one past the full
written range. -/
theorem export_xlsx_autofilter_cex :
    ¬ ((export_xlsx [("pc1.corp.local",
            [mkShareRecord "pc1.corp.local" "10.0.0.5" ⟨"FILES\x00", "\x00", 0⟩])]).autofilter
          = (0, 0,
             (export_xlsx [("pc1.corp.local",
                [mkShareRecord "pc1.corp.local" "10.0.0.5"
                  ⟨"FILES\x00", "\x00", 0⟩])]).rows.length,
             header_fields.length - 1)) := by
  decide

/-- C7 (amended): for every `Results` map the XLSX exporter writes the
header row `header_fields` followed by exactly one data row per
`ShareRecord` in iteration order, and enables autofilter over all five
columns from the header row to one row past the last written data row
(the source passes the post-loop `row_id`, which is one greater than the
index of the last written data row). -/
theorem export_xlsx_layout (results : Results) :
    (export_xlsx results).header = header_fields
    ∧ (export_xlsx results).rows = results.flatMap (fun kv => kv.2.map xlsxRowOf)
    ∧ (export_xlsx results).autofilter
        = (0, 0, (export_xlsx results).rows.length + 1, header_fields.length - 1) :=
  ⟨rfl, export_xlsx_rows results, export_xlsx_autofilter results⟩

lemma processShares_fold_fst (options : Options) (target_name target_ip address : String) :
    ∀ (shares : List SmbShare) (results : Results) (lines : List String),
      (shares.foldl
          (fun acc share =>
            let step := workerShareStep options target_name target_ip address share acc.1
            (step.1, acc.2 ++ step.2))
          (results, lines)).1
        = shares.foldl
            (fun acc s => resultsAppend target_name (mkShareRecord target_name target_ip s) acc)
            results
  | [], results, lines => rfl
  | s :: rest, results, lines =>
    processShares_fold_fst options target_name target_ip address rest _ _

lemma processShares_fst (options : Options) (target_name target_ip address : String)
    (shares : List SmbShare) (results : Results) :
    (processShares options target_name target_ip address shares results).1
      = shares.foldl
          (fun acc s => resultsAppend target_name (mkShareRecord target_name target_ip s) acc)
          results :=
  processShares_fold_fst options target_name target_ip address shares results []

lemma worker_fst (options : Options) (target_name : String) (outcome : ProbeOutcome)
    (results : Results) :
    (worker options target_name outcome results).1 = workerResults target_name outcome results := by
  cases outcome with
  | noAnswer => rfl
  | failure target_ip processed msg =>
      show (processShares options target_name target_ip target_name processed results).1 = _
      exact processShares_fst options target_name target_ip target_name processed results
  | ok target_ip shares =>
      exact processShares_fst options target_name target_ip target_name shares results

lemma runHosts_fst (options : Options) :
    ∀ (hosts : List (String × ProbeOutcome)) (results : Results) (lines : List String),
      (runHosts options hosts (results, lines)).1
        = hosts.foldl (fun acc h => workerResults h.1 h.2 acc) results := by
  intro hosts
  induction hosts with
  | nil => intro results lines; rfl
  | cons h hs ih =>
    intro results lines
    show (runHosts options hs ((worker options h.1 h.2 results).1, _)).1 = _
    rw [List.foldl_cons]
    rw [show (runHosts options hs ((worker options h.1 h.2 results).1,
        lines ++ (worker options h.1 h.2 results).2)) = _ from rfl]
    rw [ih _ _, worker_fst]

/-- C6: invoked with no command-line arguments the program prints usage and
exits with status 1; otherwise, once the directory bind has succeeded
(yielding the host list), the run completes with exit status 0 for every
outcome of the per-host probes, and a host whose probe fails (no DNS answer,
or an exception before any share was recorded) contributes nothing and
leaves every other host's recorded results untouched. -/
theorem run_exit_behavior (options : Options) (argv : List String)
    (hosts hs₁ hs₂ : List (String × ProbeOutcome)) (h ip msg : String) :
    (argv = [] → runProgram options argv hosts
        = { exitCode := 1, usagePrinted := true, results := [], output := [] })
    ∧ (argv ≠ [] → (runProgram options argv hosts).exitCode = 0
        ∧ (runProgram options argv hosts).usagePrinted = false)
    ∧ (runProgram options argv (hs₁ ++ ((h, ProbeOutcome.noAnswer) :: hs₂))).results
        = (runProgram options argv (hs₁ ++ hs₂)).results
    ∧ (runProgram options argv (hs₁ ++ ((h, ProbeOutcome.failure ip [] msg) :: hs₂))).results
        = (runProgram options argv (hs₁ ++ hs₂)).results := by
  refine ⟨?_, ?_, ?_, ?_⟩
  · intro ha; subst ha; rfl
  · intro ha
    cases argv with
    | nil => exact absurd rfl ha
    | cons a as => exact ⟨rfl, rfl⟩
  · cases argv with
    | nil => rfl
    | cons a as =>
      show (runHosts options (hs₁ ++ ((h, ProbeOutcome.noAnswer) :: hs₂)) ([], [])).1
        = (runHosts options (hs₁ ++ hs₂) ([], [])).1
      rw [runHosts_fst, runHosts_fst, List.foldl_append, List.foldl_append, List.foldl_cons]
      rfl
  · cases argv with
    | nil => rfl
    | cons a as =>
      show (runHosts options (hs₁ ++ ((h, ProbeOutcome.failure ip [] msg) :: hs₂)) ([], [])).1
        = (runHosts options (hs₁ ++ hs₂) ([], [])).1
      rw [runHosts_fst, runHosts_fst, List.foldl_append, List.foldl_append, List.foldl_cons]
      rfl

/-- Witness for C6: the empty command line exits 1; a non-empty command
line with one failing and one unresolvable host still exits 0. -/
theorem run_exit_behavior_witness :
    runProgram ⟨false, false, false, true, false, 20⟩ [] []
        = { exitCode := 1, usagePrinted := true, results := [], output := [] }
    ∧ (runProgram ⟨false, false, false, true, false, 20⟩ ["-u", "jdoe"]
        [("pc1.corp.local", ProbeOutcome.failure "10.0.0.5" [] "errmsg"),
         ("pc2.corp.local", ProbeOutcome.noAnswer)]).exitCode = 0 := by
  refine ⟨(run_exit_behavior ⟨false, false, false, true, false, 20⟩ [] [] [] [] "" "" "").1 rfl,
    ((run_exit_behavior ⟨false, false, false, true, false, 20⟩ ["-u", "jdoe"]
      [("pc1.corp.local", ProbeOutcome.failure "10.0.0.5" [] "errmsg"),
       ("pc2.corp.local", ProbeOutcome.noAnswer)] [] [] "" "" "").2.1 (by simp)).1⟩

lemma runProgram_results_eq (o₁ o₂ : Options) (argv : List String)
    (hosts : List (String × ProbeOutcome)) :
    (runProgram o₁ argv hosts).results = (runProgram o₂ argv hosts).results := by
  cases argv with
  | nil => rfl
  | cons a as =>
    show (runHosts o₁ hosts ([], [])).1 = (runHosts o₂ hosts ([], [])).1
    rw [runHosts_fst, runHosts_fst]

/-- C8: the recorded results map — and with it every export payload — is
independent of the ignore-hidden-shares flag: flipping the flag on an
otherwise identical run changes at most which console discovery lines are
printed. -/
theorem ignore_hidden_shares_display_only (options : Options) (b : Bool)
    (argv : List String) (hosts : List (String × ProbeOutcome)) :
    (runProgram { options with ignore_hidden_shares := b } argv hosts).results
        = (runProgram options argv hosts).results
    ∧ export_json (runProgram { options with ignore_hidden_shares := b } argv hosts).results
        = export_json (runProgram options argv hosts).results
    ∧ export_xlsx (runProgram { options with ignore_hidden_shares := b } argv hosts).results
        = export_xlsx (runProgram options argv hosts).results
    ∧ export_sqlite (runProgram { options with ignore_hidden_shares := b } argv hosts).results
        = export_sqlite (runProgram options argv hosts).results := by
  have hres := runProgram_results_eq { options with ignore_hidden_shares := b } options
    argv hosts
  exact ⟨hres, congrArg export_json hres, congrArg export_xlsx hres,
    congrArg export_sqlite hres⟩

/-! ## Password prompt reachability (C10) -/

lemma parseCredTokens_cons (tok : String) (rest : List String) (opts : CredOptions)
    (seen : Option String) :
    parseCredTokens (tok :: rest) opts seen =
      (if tok == "--no-pass" then
        if groupOk seen "--no-pass" then
          parseCredTokens rest { opts with no_pass := true } (some "--no-pass")
        else none
      else if tok == "-p" || tok == "--password" then
        match rest with
        | [] => none
        | v :: rest₂ =>
          if groupOk seen "-p" then
            parseCredTokens rest₂ { opts with auth_password := some v } (some "-p")
          else none
      else if tok == "-H" || tok == "--hashes" then
        match rest with
        | [] => none
        | v :: rest₂ =>
          if groupOk seen "-H" then
            parseCredTokens rest₂ { opts with auth_hashes := some v } (some "-H")
          else none
      else if tok == "--aes-key" then
        match rest with
        | [] => none
        | v :: rest₂ =>
          if groupOk seen "--aes-key" then
            parseCredTokens rest₂ { opts with auth_key := some v } (some "--aes-key")
          else none
      else if tok == "-k" || tok == "--kerberos" then
        parseCredTokens rest { opts with use_kerberos := true } seen
      else
        parseCredTokens rest opts seen) := by
  rw [parseCredTokens.eq_def]

lemma parseCredTokens_password_ne_none (n : Nat) :
    ∀ (argv : List String), argv.length ≤ n →
      ∀ (o : CredOptions) (seen : Option String) (opts : CredOptions),
        o.auth_password ≠ none → parseCredTokens argv o seen = some opts →
        opts.auth_password ≠ none := by
  induction n with
  | zero =>
    intro argv hlen o seen opts hne hp
    have hnil : argv = [] := List.length_eq_zero.mp (Nat.le_zero.mp hlen)
    subst hnil
    simp only [parseCredTokens, Option.some.injEq] at hp
    exact hp ▸ hne
  | succ n ih =>
    intro argv hlen o seen opts hne hp
    cases argv with
    | nil =>
      simp only [parseCredTokens, Option.some.injEq] at hp
      exact hp ▸ hne
    | cons tok rest =>
      have hrest : rest.length ≤ n := by
        simp only [List.length_cons] at hlen
        omega
      rw [parseCredTokens_cons] at hp
      split at hp
      · -- "--no-pass"
        split at hp
        · refine ih rest hrest _ _ _ ?_ hp
          exact hne
        · exact Option.noConfusion hp
      · split at hp
        · -- "-p"/"--password"
          split at hp
          · exact Option.noConfusion hp
          · split at hp
            · refine ih _ ?_ _ _ _ (by simp) hp
              simp only [List.length_cons] at hrest
              omega
            · exact Option.noConfusion hp
        · split at hp
          · -- "-H"/"--hashes"
            split at hp
            · exact Option.noConfusion hp
            · split at hp
              · refine ih _ ?_ _ _ _ ?_ hp
                · simp only [List.length_cons] at hrest
                  omega
                · exact hne
              · exact Option.noConfusion hp
          · split at hp
            · -- "--aes-key"
              split at hp
              · exact Option.noConfusion hp
              · split at hp
                · refine ih _ ?_ _ _ _ ?_ hp
                  · simp only [List.length_cons] at hrest
                    omega
                  · exact hne
                · exact Option.noConfusion hp
            · split at hp
              · -- "-k"/"--kerberos"
                refine ih rest hrest _ _ _ ?_ hp
                exact hne
              · -- any other token
                exact ih rest hrest _ _ _ hne hp

/-- C10: for every command line the argument parser accepts, the parsed
password is never Python `None` — it defaults to the empty string — so the
interactive password prompt branch (`auth_password is None and not
no_pass`) is unreachable. -/
theorem password_prompt_unreachable (argv : List String) (opts : CredOptions)
    (h : parse_args_credentials argv = some opts) :
    opts.auth_password ≠ none ∧ passwordPromptReached opts = false := by
  have hne : opts.auth_password ≠ none :=
    parseCredTokens_password_ne_none argv.length argv (Nat.le_refl _)
      credDefaults none opts (by simp [credDefaults]) h
  refine ⟨hne, ?_⟩
  cases hopt : opts.auth_password with
  | none => exact absurd hopt hne
  | some v => simp [passwordPromptReached, hopt]

/-- Witness for C10: a command line that supplies no credential option at
all parses to the defaults, whose password is the empty string, and the
prompt is not reached. -/
theorem password_prompt_unreachable_witness :
    parse_args_credentials ["--dc-ip", "192.168.1.5", "-u", "jdoe"] = some credDefaults
    ∧ (credDefaults.auth_password ≠ none
       ∧ passwordPromptReached credDefaults = false) :=
  ⟨by decide,
   password_prompt_unreachable ["--dc-ip", "192.168.1.5", "-u", "jdoe"] credDefaults
     (by decide)⟩

end FindUncommonShares

